import Mathlib

set_option maxRecDepth 8000

/-!
Verification of the subway transfer route finder (src/project.py).

The Python program builds an in-memory network from input records
(class SubwaySystem, method load_from_csv) and enumerates all simple
transfer routes between two named stops (method find_route, with the
nested helpers dfs and get_path_signature).

Embedding conventions:
* Python Station objects are kept in an arena (list of Station values in
  creation order); an object reference is an arena index (Nat).
* Python dicts are association lists with overwrite-on-repeated-key
  semantics; only lookup and membership are ever used by the search.
* The recursive dfs is written with an explicit fuel argument; fuel
  exhaustion is a distinguished error value outOfFuel, and we prove the
  fuel chosen by find_route is never exhausted (the visited-set bound).
* Python dict KeyError (an unresolvable transfer id, or an unknown line
  name) is the error value keyError; badRef is an arena index out of
  range, which never happens for loaded systems.
-/

/-- One per-line stop record of the network; mirrors the Station dataclass
of src/project.py. The prev and next fields of the Python class hold
references to the sequentially adjacent Station objects of the same line;
object references are modelled as indices into the arena of all Station
objects, in creation order. -/
structure Station where
  id : Int
  line : String
  name : String
  transfer_ids : List Int
  prev : Option Nat
  next : Option Nat
  deriving DecidableEq

/-- One parsed input row (id, line, name, transfer ids): the in-memory
record that one CSV data line of load_from_csv yields after the int and
split conversions. CSV parsing itself is external I/O and out of scope. -/
structure Record where
  id : Int
  line : String
  name : String
  transfer_ids : List Int
  deriving DecidableEq

/-- The SubwaySystem state after loading: the arena of Station objects in
creation order, the stations dict (id to object reference) and the lines
dict (line name to its ordered list of object references). -/
structure SubwaySystem where
  arena : List Station
  stations : List (Int × Nat)
  lines : List (String × List Nat)
  deriving DecidableEq

/-- Python dict lookup on the stations dict: value of the (unique) entry
with the given key, none when absent. -/
def dictLookup (d : List (Int × Nat)) (k : Int) : Option Nat :=
  (d.find? (fun p => decide (p.1 = k))).map (fun p => p.2)

/-- Python dict assignment d[k] = v on the stations dict: overwrite the
existing entry in place, else append a new one. -/
def dictInsert (d : List (Int × Nat)) (k : Int) (v : Nat) : List (Int × Nat) :=
  if d.any (fun p => decide (p.1 = k)) then
    d.map (fun p => if p.1 = k then (k, v) else p)
  else d ++ [(k, v)]

/-- Python dict lookup on the lines dict. -/
def linesLookup (d : List (String × List Nat)) (k : String) : Option (List Nat) :=
  (d.find? (fun p => decide (p.1 = k))).map (fun p => p.2)

/-- The loader's per-row update of the lines dict: create the key with an
empty list when absent, then append the new object reference (lines 76-78
of src/project.py). -/
def linesAppend (d : List (String × List Nat)) (k : String) (v : Nat) :
    List (String × List Nat) :=
  if d.any (fun p => decide (p.1 = k)) then
    d.map (fun p => if p.1 = k then (p.1, p.2 ++ [v]) else p)
  else d ++ [(k, [v])]

/-- First pass of load_from_csv for one row: create the Station object
(prev and next not yet set), store it under its id in the stations dict
(a repeated id silently overwrites the earlier entry, as Python dict
assignment does) and append it to its line's list. -/
def load_step (sys : SubwaySystem) (r : Record) : SubwaySystem :=
  { arena := sys.arena ++
      [{ id := r.id, line := r.line, name := r.name,
         transfer_ids := r.transfer_ids, prev := none, next := none }],
    stations := dictInsert sys.stations r.id sys.arena.length,
    lines := linesAppend sys.lines r.line sys.arena.length }

/-- First pass of load_from_csv over all rows. -/
def load_phase1 (rows : List Record) : SubwaySystem :=
  rows.foldl load_step ⟨[], [], []⟩

/-- Second pass, one position of one line: for the station object at
position i of line list l, set prev (when i > 0) and next (when
i < length - 1) to the adjacent object references, mirroring lines 81-88
of src/project.py. -/
def linkStep (ar : List Station) (l : List Nat) (i : Nat) : List Station :=
  match l[i]? with
  | none => ar
  | some j =>
    match ar[j]? with
    | none => ar
    | some s =>
      ar.set j
        { s with prev := if 0 < i then l[i - 1]? else s.prev,
                 next := if i < l.length - 1 then l[i + 1]? else s.next }

/-- Second pass over one line's positions in order. -/
def linkLine (ar : List Station) (l : List Nat) : List Station :=
  (List.range l.length).foldl (fun a i => linkStep a l i) ar

/-- Second pass over every line of the lines dict. -/
def linkAll (ar : List Station) (lines : List (String × List Nat)) :
    List Station :=
  lines.foldl (fun a p => linkLine a p.2) ar

/-- load_from_csv of src/project.py, applied to the already-parsed record
sequence (the file reading and CSV field splitting are external): first
pass creates and registers every Station, second pass sets the prev and
next links within each line. -/
def load_from_records (rows : List Record) : SubwaySystem :=
  let sys := load_phase1 rows
  { sys with arena := linkAll sys.arena sys.lines }

/-- A path under construction or returned: Station object paired with the
flag telling whether it was entered via a transfer edge. -/
abbrev RoutePath := List (Station × Bool)

/-- One step of the processed_ids loop of get_path_signature: append the
station id unless the list already ends with two copies of that id (the
test mirrors lines 129-131 of src/project.py, with the Python indexing
processed_ids[-1] written getLast! and processed_ids[-2] written
dropLast.getLast!). -/
def sigStep (processed_ids : List Int) (st : Station × Bool) : List Int :=
  if processed_ids.length < 2 ∨ st.1.id ≠ processed_ids.getLast! ∨
      st.1.id ≠ processed_ids.dropLast.getLast! then
    processed_ids ++ [st.1.id]
  else processed_ids

/-- The id list underlying get_path_signature of src/project.py: walk the
path in order, applying sigStep to each element. -/
def get_path_signature_ids (path : RoutePath) : List Int :=
  path.foldl sigStep []

/-- get_path_signature of src/project.py: the processed id list joined
with commas. -/
def get_path_signature (path : RoutePath) : String :=
  String.intercalate "," ((get_path_signature_ids path).map (fun i => toString i))

/-- Error outcomes of the embedded search. keyError is a Python dict
KeyError (unknown line name, or a transfer id absent from the stations
dict); outOfFuel marks exhaustion of the explicit recursion fuel (proved
unreachable for loaded systems); badRef is an out-of-range arena index
(impossible in Python, where references are direct, and proved irrelevant
here: it is only ever produced, never silently skipped). -/
inductive SearchError where
  | outOfFuel
  | keyError
  | badRef
  deriving DecidableEq

/-- The accumulating search state of find_route: all_paths and
path_signatures. The Python path_signatures set is only ever tested for
membership, so a list of the inserted signatures models it. -/
structure SearchAcc where
  all_paths : List RoutePath
  path_signatures : List String
  deriving DecidableEq

/-- Sequencing of fallible search steps (a raised exception aborts the
whole find_route call, discarding the accumulated results, exactly as a
propagating Python exception would). -/
def exBind (x : Except SearchError SearchAcc)
    (f : SearchAcc → Except SearchError SearchAcc) :
    Except SearchError SearchAcc :=
  match x with
  | .error e => .error e
  | .ok a => f a

/-- One iteration of the Python loop for next_station in [current.prev,
current.next]: skip an absent link, dereference the object, skip it when
already visited, else run the recursive call f. -/
def visitNeighbor (sys : SubwaySystem)
    (f : Station → SearchAcc → Except SearchError SearchAcc)
    (visited : List Int) (ref : Option Nat) (acc : SearchAcc) :
    Except SearchError SearchAcc :=
  match ref with
  | none => .ok acc
  | some j =>
    match sys.arena[j]? with
    | none => .error .badRef
    | some ns => if ns.id ∈ visited then .ok acc else f ns acc

/-- Run the recursive call f on each station of a list in order, threading
the accumulated state, aborting on the first raised error. -/
def foldChildren (f : Station → SearchAcc → Except SearchError SearchAcc) :
    List Station → SearchAcc → Except SearchError SearchAcc
  | [], acc => .ok acc
  | s :: rest, acc =>
    match f s acc with
    | .error e => .error e
    | .ok acc2 => foldChildren f rest acc2

/-- Resolve every transfer id of a station through the stations dict
(line 166 of src/project.py, self.stations[transfer_id]); an absent id
raises KeyError before any recursive exploration happens. -/
def resolveTransfers (sys : SubwaySystem) : List Int → Except SearchError (List Station)
  | [] => .ok []
  | tid :: rest =>
    match dictLookup sys.stations tid with
    | none => .error .keyError
    | some j =>
      match sys.arena[j]? with
      | none => .error .badRef
      | some s =>
        match resolveTransfers sys rest with
        | .error e => .error e
        | .ok ss => .ok (s :: ss)

/-- The nested dfs of find_route (lines 135-188 of src/project.py), in
state-passing form. The visited set and current_path are call-local
values (the Python code restores both on exit, so each recursive call
sees exactly the caller's versions extended by the current station); the
accumulated all_paths and path_signatures thread through. The fuel
argument makes the recursion structural; find_route supplies one more
than the number of distinct station ids, which is proved sufficient. -/
def dfs (sys : SubwaySystem) :
    Nat → Station → Station → Bool → List Int → RoutePath → SearchAcc →
    Except SearchError SearchAcc
  | 0, _, _, _, _, _, _ => .error .outOfFuel
  | fuel + 1, current, target, is_transfer, visited, current_path, acc =>
    if current.id ∈ visited then .ok acc
    else
      let visited2 := current.id :: visited
      let path2 := current_path ++ [(current, is_transfer)]
      if current.id = target.id then
        let path_sig := get_path_signature path2
        if path_sig ∈ acc.path_signatures then .ok acc
        else .ok ⟨acc.all_paths ++ [path2], acc.path_signatures ++ [path_sig]⟩
      else if current.line = target.line then
        exBind
          (visitNeighbor sys (fun ns a => dfs sys fuel ns target false visited2 path2 a)
            visited2 current.prev acc)
          (fun a2 =>
            visitNeighbor sys (fun ns a => dfs sys fuel ns target false visited2 path2 a)
              visited2 current.next a2)
      else
        match resolveTransfers sys current.transfer_ids with
        | .error e => .error e
        | .ok resolved =>
          let unvisited := resolved.filter (fun t => decide (t.id ∉ visited2))
          let target_line_transfers :=
            unvisited.filter (fun t => decide (t.line = target.line))
          let other_transfers :=
            unvisited.filter (fun t => decide (¬ t.line = target.line))
          if target_line_transfers = [] then
            exBind
              (exBind
                (foldChildren (fun t a => dfs sys fuel t target true visited2 path2 a)
                  other_transfers acc)
                (fun a2 =>
                  visitNeighbor sys
                    (fun ns a => dfs sys fuel ns target false visited2 path2 a)
                    visited2 current.prev a2))
              (fun a3 =>
                visitNeighbor sys
                  (fun ns a => dfs sys fuel ns target false visited2 path2 a)
                  visited2 current.next a3)
          else
            foldChildren (fun t a => dfs sys fuel t target true visited2 path2 a)
              target_line_transfers acc

/-- The generator expression of lines 101-102 of src/project.py: the first
Station of the given line list whose name matches. -/
def find_station_in_line (sys : SubwaySystem) (idxs : List Nat) (name : String) :
    Option Station :=
  (idxs.filterMap (fun i => sys.arena[i]?)).find? (fun s => decide (s.name = name))

/-- The lookup contract of the spec (section 4.1): first Stop of the named
line whose name matches, none when the line is unknown or no name
matches. find_route differs on an unknown line, where Python raises. -/
def stop_by_line_and_name (sys : SubwaySystem) (line name : String) : Option Station :=
  match linesLookup sys.lines line with
  | none => none
  | some l => find_station_in_line sys l name

/-- find_route of src/project.py. The two subscripts self.lines[...] raise
KeyError on an unknown line name; if both resolve but either generator
finds no station, the empty list is returned; otherwise the dfs runs with
empty search state and the accumulated all_paths is returned. -/
def find_route (sys : SubwaySystem)
    (start_line start_station end_line end_station : String) :
    Except SearchError (List RoutePath) :=
  match linesLookup sys.lines start_line with
  | none => .error .keyError
  | some sl =>
    match linesLookup sys.lines end_line with
    | none => .error .keyError
    | some el =>
      match find_station_in_line sys sl start_station,
            find_station_in_line sys el end_station with
      | some s, some e =>
        match dfs sys (sys.stations.length + 1) s e false [] [] ⟨[], []⟩ with
        | .error err => .error err
        | .ok acc => .ok acc.all_paths
      | _, _ => .ok []

/-- Project a search result to readable (id, flag) pairs. -/
def routeIds (r : Except SearchError (List RoutePath)) :
    Except SearchError (List (List (Int × Bool))) :=
  match r with
  | .error e => .error e
  | .ok ps => .ok (ps.map (fun p => p.map (fun e => (e.1.id, e.2))))

/-- The concrete scenario network of the spec (section 8): line A with
sequential stops 1 X, 2 Y, 3 Z; line B with sequential stops 4 Y, 5 W;
transfer link between stops 2 and 4. -/
def rowsC7 : List Record :=
  [⟨1, "A", "X", []⟩, ⟨2, "A", "Y", [4]⟩, ⟨3, "A", "Z", []⟩,
   ⟨4, "B", "Y", [2]⟩, ⟨5, "B", "W", []⟩]

/-- The scenario network, loaded. -/
def sysC7 : SubwaySystem := load_from_records rowsC7

/-- Two input records sharing the id 1: the duplicate-id input used to
examine construction behaviour. -/
def rowsDup : List Record := [⟨1, "A", "X", []⟩, ⟨1, "A", "Y", []⟩]

/-- The single path the search returns on the scenario network for the
query from (A, X) to (B, W): stations 1, 2, then transfer to 4, then 5,
with the Station objects as they stand after linking. -/
def pathAXBW : RoutePath :=
  [(⟨1, "A", "X", [], none, some 1⟩, false),
   (⟨2, "A", "Y", [4], some 0, some 2⟩, false),
   (⟨4, "B", "Y", [2], none, some 4⟩, true),
   (⟨5, "B", "W", [], some 3, none⟩, false)]

/-- Station 2 of the scenario network as linked by loading (line A, name
Y, transfer to 4, between arena positions 0 and 2). -/
def stA2 : Station := ⟨2, "A", "Y", [4], some 0, some 2⟩

/-- Station 4 of the scenario network as linked by loading (line B, name
Y, transfer to 2, first of line B, before arena position 4). -/
def stB4 : Station := ⟨4, "B", "Y", [2], none, some 4⟩

/-- Station 5 of the scenario network as linked by loading (line B, name
W, last of line B, after arena position 3). -/
def stB5 : Station := ⟨5, "B", "W", [], some 3, none⟩

/-- Modelled from the spec (section 4.2, canonical signature): walk the
path's stop ids in order, appending each id to the output list unless the
two preceding output entries both equal it, capping any run of identical
consecutive ids at length 2. This is the reference recursion written from
the spec's words, to be compared with the source's get_path_signature. -/
def signature_ids_reference (ids : List Int) : List Int :=
  ids.foldl
    (fun out i =>
      match out.reverse with
      | a :: b :: _ => if a = i ∧ b = i then out else out ++ [i]
      | _ => out ++ [i])
    []

/-- Modelled from the spec: the canonical signature is the output id list
joined into a single string in order (comma separated, as the source
joins it). -/
def signature_reference (path : RoutePath) : String :=
  String.intercalate ","
    ((signature_ids_reference (path.map (fun e => e.1.id))).map (fun i => toString i))

/-- Well-formedness of the lines dict that loading establishes: every
object reference of every line list dereferences to a Station whose line
field is that line's name. -/
def LinesInv (sys : SubwaySystem) : Prop :=
  ∀ p ∈ sys.lines, ∀ i ∈ p.2, ∃ s, sys.arena[i]? = some s ∧ s.line = p.1

/-- The extension relation of one dfs call: Reach sys target visited
current tr ext holds when the dfs of src/project.py, entered at station
current with flag tr while the visited set holds exactly the ids of the
list visited, can push exactly the path extension ext onto the current
path before reaching the target. Each constructor records the branch
conditions of lines 149-185 of src/project.py; the relation
over-approximates the search (it ignores the signature dedup filter), so
every snapshot appended to all_paths is an extension in this relation. -/
inductive Reach (sys : SubwaySystem) (target : Station) :
    List Int → Station → Bool → RoutePath → Prop where
  | done (visited : List Int) (current : Station) (tr : Bool)
      (hnv : current.id ∉ visited) (hid : current.id = target.id) :
      Reach sys target visited current tr [(current, tr)]
  | seq (visited : List Int) (current : Station) (tr : Bool) (j : Nat)
      (ns : Station) (ext : RoutePath)
      (hnv : current.id ∉ visited) (hid : current.id ≠ target.id)
      (hline : current.line = target.line)
      (href : current.prev = some j ∨ current.next = some j)
      (hget : sys.arena[j]? = some ns)
      (hreach : Reach sys target (current.id :: visited) ns false ext) :
      Reach sys target visited current tr ((current, tr) :: ext)
  | direct (visited : List Int) (current : Station) (tr : Bool)
      (resolved : List Station) (ts : Station) (ext : RoutePath)
      (hnv : current.id ∉ visited) (hid : current.id ≠ target.id)
      (hline : current.line ≠ target.line)
      (hres : resolveTransfers sys current.transfer_ids = .ok resolved)
      (hts : ts ∈ (resolved.filter
          (fun t => decide (t.id ∉ current.id :: visited))).filter
          (fun t => decide (t.line = target.line)))
      (hreach : Reach sys target (current.id :: visited) ts true ext) :
      Reach sys target visited current tr ((current, tr) :: ext)
  | indirect (visited : List Int) (current : Station) (tr : Bool)
      (resolved : List Station) (ts : Station) (ext : RoutePath)
      (hnv : current.id ∉ visited) (hid : current.id ≠ target.id)
      (hline : current.line ≠ target.line)
      (hres : resolveTransfers sys current.transfer_ids = .ok resolved)
      (hempty : (resolved.filter
          (fun t => decide (t.id ∉ current.id :: visited))).filter
          (fun t => decide (t.line = target.line)) = [])
      (hts : ts ∈ (resolved.filter
          (fun t => decide (t.id ∉ current.id :: visited))).filter
          (fun t => decide (¬ t.line = target.line)))
      (hreach : Reach sys target (current.id :: visited) ts true ext) :
      Reach sys target visited current tr ((current, tr) :: ext)
  | seqOff (visited : List Int) (current : Station) (tr : Bool)
      (resolved : List Station) (j : Nat) (ns : Station) (ext : RoutePath)
      (hnv : current.id ∉ visited) (hid : current.id ≠ target.id)
      (hline : current.line ≠ target.line)
      (hres : resolveTransfers sys current.transfer_ids = .ok resolved)
      (hempty : (resolved.filter
          (fun t => decide (t.id ∉ current.id :: visited))).filter
          (fun t => decide (t.line = target.line)) = [])
      (href : current.prev = some j ∨ current.next = some j)
      (hget : sys.arena[j]? = some ns)
      (hreach : Reach sys target (current.id :: visited) ns false ext) :
      Reach sys target visited current tr ((current, tr) :: ext)

lemma exBind_ok {x : Except SearchError SearchAcc}
    {f : SearchAcc → Except SearchError SearchAcc} {acc2 : SearchAcc}
    (h : exBind x f = .ok acc2) : ∃ a1, x = .ok a1 ∧ f a1 = .ok acc2 := by
  cases x with
  | error e => simp [exBind] at h
  | ok a => exact ⟨a, rfl, h⟩

lemma visitNeighbor_ok {sys : SubwaySystem}
    {f : Station → SearchAcc → Except SearchError SearchAcc}
    {visited : List Int} {ref : Option Nat} {acc acc2 : SearchAcc}
    (h : visitNeighbor sys f visited ref acc = .ok acc2) :
    acc2 = acc ∨ ∃ j ns, ref = some j ∧ sys.arena[j]? = some ns ∧
      ns.id ∉ visited ∧ f ns acc = .ok acc2 := by
  unfold visitNeighbor at h
  split at h
  · exact Or.inl (Except.ok.inj h).symm
  next j =>
    split at h
    · exact absurd h (by simp)
    next ns hj =>
      split at h
      · exact Or.inl (Except.ok.inj h).symm
      next hv => exact Or.inr ⟨j, ns, rfl, hj, hv, h⟩

lemma foldChildren_sound {f : Station → SearchAcc → Except SearchError SearchAcc}
    {Q : Station → RoutePath → Prop}
    (hf : ∀ t a a2, f t a = .ok a2 → ∀ p ∈ a2.all_paths, p ∈ a.all_paths ∨ Q t p) :
    ∀ (l : List Station) (acc acc2 : SearchAcc),
      foldChildren f l acc = .ok acc2 →
      ∀ p ∈ acc2.all_paths, p ∈ acc.all_paths ∨ ∃ t ∈ l, Q t p := by
  intro l
  induction l with
  | nil =>
    intro acc acc2 h p hp
    unfold foldChildren at h
    cases h
    exact Or.inl hp
  | cons s rest ih =>
    intro acc acc2 h p hp
    unfold foldChildren at h
    cases hs : f s acc with
    | error e => rw [hs] at h; exact absurd h (by simp)
    | ok a1 =>
      rw [hs] at h
      rcases ih a1 acc2 h p hp with h1 | ⟨t, ht, hq⟩
      · rcases hf s acc a1 hs p h1 with h2 | hq
        · exact Or.inl h2
        · exact Or.inr ⟨s, by simp, hq⟩
      · exact Or.inr ⟨t, by simp [ht], hq⟩

lemma resolveTransfers_mem {sys : SubwaySystem} :
    ∀ {tids : List Int} {resolved : List Station},
      resolveTransfers sys tids = .ok resolved →
      ∀ {s : Station}, s ∈ resolved →
        ∃ tid ∈ tids, ∃ j, dictLookup sys.stations tid = some j ∧
          sys.arena[j]? = some s := by
  intro tids
  induction tids with
  | nil =>
    intro resolved h s hs
    unfold resolveTransfers at h
    cases h
    simp at hs
  | cons tid rest ih =>
    intro resolved h s hs
    unfold resolveTransfers at h
    split at h
    · exact absurd h (by simp)
    next j hl =>
      split at h
      · exact absurd h (by simp)
      next st hg =>
        split at h
        · exact absurd h (by simp)
        next ss hr =>
          cases h
          rcases List.mem_cons.mp hs with rfl | hs2
          · exact ⟨tid, by simp, j, hl, hg⟩
          · rcases ih hr hs2 with ⟨tid2, ht2, j2, hl2, hg2⟩
            exact ⟨tid2, by simp [ht2], j2, hl2, hg2⟩

lemma resolveTransfers_mem_of {sys : SubwaySystem} :
    ∀ {tids : List Int} {resolved : List Station},
      resolveTransfers sys tids = .ok resolved →
      ∀ {tid : Int} {j : Nat} {s : Station}, tid ∈ tids →
        dictLookup sys.stations tid = some j → sys.arena[j]? = some s →
        s ∈ resolved := by
  intro tids
  induction tids with
  | nil => intro resolved _ tid j s ht _ _; simp at ht
  | cons tid0 rest ih =>
    intro resolved h tid j s ht hl hg
    unfold resolveTransfers at h
    split at h
    · exact absurd h (by simp)
    next j0 hl0 =>
      split at h
      · exact absurd h (by simp)
      next st0 hg0 =>
        split at h
        · exact absurd h (by simp)
        next ss hr =>
          cases h
          rcases List.mem_cons.mp ht with rfl | ht2
          · rw [hl0] at hl
            cases hl
            rw [hg0] at hg
            cases hg
            simp
          · simp [ih hr ht2 hl hg]

lemma resolveTransfers_ne_outOfFuel (sys : SubwaySystem) :
    ∀ (tids : List Int), resolveTransfers sys tids ≠ .error .outOfFuel := by
  intro tids
  induction tids with
  | nil => simp [resolveTransfers]
  | cons tid rest ih =>
    unfold resolveTransfers
    split
    · simp
    split
    · simp
    split
    · next e hr =>
      rw [hr] at ih
      exact ih
    · simp

/-- Soundness of the search: every path found in the accumulated result of
a dfs call that returns normally either was already accumulated or is the
current path extended by a Reach extension of the call's entry state. -/
theorem dfs_sound (sys : SubwaySystem) :
    ∀ (fuel : Nat) (current target : Station) (tr : Bool) (visited : List Int)
      (path : RoutePath) (acc acc2 : SearchAcc),
      dfs sys fuel current target tr visited path acc = .ok acc2 →
      ∀ p ∈ acc2.all_paths,
        p ∈ acc.all_paths ∨
          ∃ ext, p = path ++ ext ∧ Reach sys target visited current tr ext := by
  intro fuel
  induction fuel with
  | zero =>
    intro current target tr visited path acc acc2 h
    exact absurd h (by simp [dfs])
  | succ fuel ih =>
    intro current target tr visited path acc acc2 h p hp
    simp only [dfs] at h
    by_cases hv : current.id ∈ visited
    · rw [if_pos hv] at h
      cases h
      exact Or.inl hp
    · rw [if_neg hv] at h
      by_cases hid : current.id = target.id
      · rw [if_pos hid] at h
        by_cases hsig :
            get_path_signature (path ++ [(current, tr)]) ∈ acc.path_signatures
        · rw [if_pos hsig] at h
          cases h
          exact Or.inl hp
        · rw [if_neg hsig] at h
          cases h
          rcases List.mem_append.mp hp with h1 | h2
          · exact Or.inl h1
          · right
            refine ⟨[(current, tr)], ?_, Reach.done visited current tr hv hid⟩
            simpa using List.mem_singleton.mp h2
      · rw [if_neg hid] at h
        by_cases hline : current.line = target.line
        · rw [if_pos hline] at h
          obtain ⟨a1, hprev, hnext⟩ := exBind_ok h
          have lift : ∀ (ref : Option Nat),
              ref = current.prev ∨ ref = current.next →
              ∀ (b1 b2 : SearchAcc),
              visitNeighbor sys
                (fun ns a =>
                  dfs sys fuel ns target false (current.id :: visited)
                    (path ++ [(current, tr)]) a)
                (current.id :: visited) ref b1 = .ok b2 →
              ∀ q ∈ b2.all_paths, q ∈ b1.all_paths ∨
                ∃ ext, q = path ++ ext ∧
                  Reach sys target visited current tr ext := by
            intro ref hrefsel b1 b2 hv2 q hq
            rcases visitNeighbor_ok hv2 with rfl | ⟨j, ns, hrefj, hget, _, hcall⟩
            · exact Or.inl hq
            · rcases ih ns target false (current.id :: visited)
                  (path ++ [(current, tr)]) b1 b2 hcall q hq with h1 | ⟨ext, hq2, hre⟩
              · exact Or.inl h1
              · right
                have href : current.prev = some j ∨ current.next = some j := by
                  rcases hrefsel with rfl | rfl
                  · exact Or.inl hrefj
                  · exact Or.inr hrefj
                refine ⟨(current, tr) :: ext, ?_,
                  Reach.seq visited current tr j ns ext hv hid hline href hget hre⟩
                rw [hq2, List.append_assoc]
                rfl
          rcases lift current.next (Or.inr rfl) a1 acc2 hnext p hp with h1 | hex
          · rcases lift current.prev (Or.inl rfl) acc a1 hprev p h1 with h2 | hex
            · exact Or.inl h2
            · exact Or.inr hex
          · exact Or.inr hex
        · rw [if_neg hline] at h
          cases hres : resolveTransfers sys current.transfer_ids with
          | error e =>
            simp only [hres] at h
            exact absurd h (by simp)
          | ok resolved =>
            simp only [hres] at h
            have hQt : ∀ t a a2,
                dfs sys fuel t target true (current.id :: visited)
                  (path ++ [(current, tr)]) a = .ok a2 →
                ∀ q ∈ a2.all_paths, q ∈ a.all_paths ∨
                  ∃ ext, q = (path ++ [(current, tr)]) ++ ext ∧
                    Reach sys target (current.id :: visited) t true ext :=
              fun t a a2 hcall =>
                ih t target true (current.id :: visited)
                  (path ++ [(current, tr)]) a a2 hcall
            by_cases hempty :
                (resolved.filter
                    (fun t => decide (t.id ∉ current.id :: visited))).filter
                  (fun t => decide (t.line = target.line)) = []
            · rw [if_pos hempty] at h
              obtain ⟨a3, hindir2, hnext2⟩ := exBind_ok h
              obtain ⟨a2, hfold, hprev2⟩ := exBind_ok hindir2
              have lift2 : ∀ (ref : Option Nat),
                  ref = current.prev ∨ ref = current.next →
                  ∀ (b1 b2 : SearchAcc),
                  visitNeighbor sys
                    (fun ns a =>
                      dfs sys fuel ns target false (current.id :: visited)
                        (path ++ [(current, tr)]) a)
                    (current.id :: visited) ref b1 = .ok b2 →
                  ∀ q ∈ b2.all_paths, q ∈ b1.all_paths ∨
                    ∃ ext, q = path ++ ext ∧
                      Reach sys target visited current tr ext := by
                intro ref hrefsel b1 b2 hv2 q hq
                rcases visitNeighbor_ok hv2 with rfl | ⟨j, ns, hrefj, hget, _, hcall⟩
                · exact Or.inl hq
                · rcases ih ns target false (current.id :: visited)
                      (path ++ [(current, tr)]) b1 b2 hcall q hq with h1 | ⟨ext, hq2, hre⟩
                  · exact Or.inl h1
                  · right
                    have href : current.prev = some j ∨ current.next = some j := by
                      rcases hrefsel with rfl | rfl
                      · exact Or.inl hrefj
                      · exact Or.inr hrefj
                    refine ⟨(current, tr) :: ext, ?_,
                      Reach.seqOff visited current tr resolved j ns ext hv hid
                        hline hres hempty href hget hre⟩
                    rw [hq2, List.append_assoc]
                    rfl
              rcases lift2 current.next (Or.inr rfl) a3 acc2 hnext2 p hp with h1 | hex
              · rcases lift2 current.prev (Or.inl rfl) a2 a3 hprev2 p h1 with h2 | hex
                · rcases foldChildren_sound hQt _ acc a2 hfold p h2 with h3 | ⟨t, ht, ext, hq2, hre⟩
                  · exact Or.inl h3
                  · right
                    refine ⟨(current, tr) :: ext, ?_,
                      Reach.indirect visited current tr resolved t ext hv hid
                        hline hres hempty ht hre⟩
                    rw [hq2, List.append_assoc]
                    rfl
                · exact Or.inr hex
              · exact Or.inr hex
            · rw [if_neg hempty] at h
              rcases foldChildren_sound hQt _ acc acc2 h p hp with h1 | ⟨t, ht, ext, hq2, hre⟩
              · exact Or.inl h1
              · right
                refine ⟨(current, tr) :: ext, ?_,
                  Reach.direct visited current tr resolved t ext hv hid
                    hline hres ht hre⟩
                rw [hq2, List.append_assoc]
                rfl

lemma getLast?_cons_some {α : Type} (x : α) {l : List α} {q : α}
    (h : l.getLast? = some q) : (x :: l).getLast? = some q := by
  cases l with
  | nil => simp at h
  | cons y t => rw [List.getLast?_cons_cons]; exact h

lemma getElem?_zero_eq_head? {α : Type} (l : List α) : l[0]? = l.head? := by
  cases l <;> simp

/-- The first element a Reach extension pushes is the entered station with
its entry flag. -/
lemma Reach.head_eq {sys : SubwaySystem} {target : Station} {visited : List Int}
    {current : Station} {tr : Bool} {ext : RoutePath}
    (h : Reach sys target visited current tr ext) :
    ext.head? = some (current, tr) := by
  cases h <;> rfl

lemma mem_arena_of_direct_filter {sys : SubwaySystem}
    {resolved : List Station} {v : List Int} {ts : Station} {q : Station → Bool}
    (hres : resolveTransfers sys tids = .ok resolved)
    (hts : ts ∈ (resolved.filter (fun t => decide (t.id ∉ v))).filter q) :
    ts ∈ sys.arena := by
  have h1 := (List.mem_filter.mp hts).1
  have h2 := (List.mem_filter.mp h1).1
  obtain ⟨tid, _, j, _, hg⟩ := resolveTransfers_mem hres h2
  exact List.getElem?_mem hg

/-- A Reach extension ends at a station carrying the target's id; the last
station is moreover an arena member when the entered one is. -/
lemma Reach.last_target {sys : SubwaySystem} {target : Station} :
    ∀ {visited : List Int} {current : Station} {tr : Bool} {ext : RoutePath},
      Reach sys target visited current tr ext → current ∈ sys.arena →
      ∃ q : Station × Bool, ext.getLast? = some q ∧ q.1.id = target.id ∧
        q.1 ∈ sys.arena := by
  intro visited current tr ext h
  induction h with
  | done visited current tr hnv hid =>
    intro hcur
    exact ⟨(current, tr), by simp, hid, hcur⟩
  | seq visited current tr j ns ext hnv hid hline href hget hreach ih =>
    intro _
    obtain ⟨q, hq, hqid, hqmem⟩ := ih (List.getElem?_mem hget)
    exact ⟨q, getLast?_cons_some _ hq, hqid, hqmem⟩
  | direct visited current tr resolved ts ext hnv hid hline hres hts hreach ih =>
    intro _
    obtain ⟨q, hq, hqid, hqmem⟩ := ih (mem_arena_of_direct_filter hres hts)
    exact ⟨q, getLast?_cons_some _ hq, hqid, hqmem⟩
  | indirect visited current tr resolved ts ext hnv hid hline hres hempty hts hreach ih =>
    intro _
    obtain ⟨q, hq, hqid, hqmem⟩ := ih (mem_arena_of_direct_filter hres hts)
    exact ⟨q, getLast?_cons_some _ hq, hqid, hqmem⟩
  | seqOff visited current tr resolved j ns ext hnv hid hline hres hempty href hget hreach ih =>
    intro _
    obtain ⟨q, hq, hqid, hqmem⟩ := ih (List.getElem?_mem hget)
    exact ⟨q, getLast?_cons_some _ hq, hqid, hqmem⟩

/-- In a Reach extension, the element after any station on the target line
was entered by a sequential move: flag false, and its station is the
dereferenced prev or next link of the one before it. -/
lemma Reach.pairwise_seq {sys : SubwaySystem} {target : Station} :
    ∀ {visited : List Int} {current : Station} {tr : Bool} {ext : RoutePath},
      Reach sys target visited current tr ext →
      ∀ (i : Nat) (x y : Station × Bool), ext[i]? = some x →
        ext[i + 1]? = some y → x.1.line = target.line →
        y.2 = false ∧ ∃ j, (x.1.prev = some j ∨ x.1.next = some j) ∧
          sys.arena[j]? = some y.1 := by
  intro visited current tr ext h
  induction h with
  | done visited current tr hnv hid =>
    intro i x y hx hy hxl
    rcases i with _ | n
    · simp at hy
    · simp at hx
  | seq visited current tr j ns ext hnv hid hline href hget hreach ih =>
    intro i x y hx hy hxl
    rcases i with _ | n
    · rw [List.getElem?_cons_zero] at hx
      cases hx
      rw [List.getElem?_cons_succ] at hy
      have hh : ext[0]? = some (ns, false) := by
        rw [getElem?_zero_eq_head?, hreach.head_eq]
      rw [hh] at hy
      cases hy
      exact ⟨rfl, j, href, hget⟩
    · rw [List.getElem?_cons_succ] at hx
      rw [List.getElem?_cons_succ] at hy
      exact ih n x y hx hy hxl
  | direct visited current tr resolved ts ext hnv hid hline hres hts hreach ih =>
    intro i x y hx hy hxl
    rcases i with _ | n
    · rw [List.getElem?_cons_zero] at hx
      cases hx
      exact absurd hxl hline
    · rw [List.getElem?_cons_succ] at hx
      rw [List.getElem?_cons_succ] at hy
      exact ih n x y hx hy hxl
  | indirect visited current tr resolved ts ext hnv hid hline hres hempty hts hreach ih =>
    intro i x y hx hy hxl
    rcases i with _ | n
    · rw [List.getElem?_cons_zero] at hx
      cases hx
      exact absurd hxl hline
    · rw [List.getElem?_cons_succ] at hx
      rw [List.getElem?_cons_succ] at hy
      exact ih n x y hx hy hxl
  | seqOff visited current tr resolved j ns ext hnv hid hline hres hempty href hget hreach ih =>
    intro i x y hx hy hxl
    rcases i with _ | n
    · rw [List.getElem?_cons_zero] at hx
      cases hx
      exact absurd hxl hline
    · rw [List.getElem?_cons_succ] at hx
      rw [List.getElem?_cons_succ] at hy
      exact ih n x y hx hy hxl

lemma nodup_cons_step {c : Station} {tr : Bool} {ext : RoutePath} {visited : List Int}
    (hnv : c.id ∉ visited)
    (ih : (ext.map (fun e => e.1.id)).Nodup ∧
      ∀ a ∈ ext.map (fun e => e.1.id), a ∉ c.id :: visited) :
    (((c, tr) :: ext).map (fun e => e.1.id)).Nodup ∧
      ∀ a ∈ ((c, tr) :: ext).map (fun e => e.1.id), a ∉ visited := by
  obtain ⟨hnd, hvis⟩ := ih
  constructor
  · rw [List.map_cons, List.nodup_cons]
    refine ⟨fun hmem => ?_, hnd⟩
    exact hvis c.id hmem (by simp)
  · intro a ha
    rw [List.map_cons, List.mem_cons] at ha
    rcases ha with rfl | ha
    · exact hnv
    · intro hc
      exact hvis a ha (by simp [hc])

/-- The station ids of a Reach extension are pairwise distinct and
disjoint from the entry visited set. -/
lemma Reach.ids_nodup {sys : SubwaySystem} {target : Station} :
    ∀ {visited : List Int} {current : Station} {tr : Bool} {ext : RoutePath},
      Reach sys target visited current tr ext →
      (ext.map (fun e => e.1.id)).Nodup ∧
        ∀ a ∈ ext.map (fun e => e.1.id), a ∉ visited := by
  intro visited current tr ext h
  induction h with
  | done visited current tr hnv hid =>
    constructor
    · simp
    · intro a ha
      simp at ha
      rw [ha]
      exact hnv
  | seq visited current tr j ns ext hnv hid hline href hget hreach ih =>
    exact nodup_cons_step hnv ih
  | direct visited current tr resolved ts ext hnv hid hline hres hts hreach ih =>
    exact nodup_cons_step hnv ih
  | indirect visited current tr resolved ts ext hnv hid hline hres hempty hts hreach ih =>
    exact nodup_cons_step hnv ih
  | seqOff visited current tr resolved j ns ext hnv hid hline hres hempty href hget hreach ih =>
    exact nodup_cons_step hnv ih

/-- Direct-transfer priority at path level: whenever some station of a
Reach extension is not the target, not on the target line, and still has
an unvisited transfer target on the target line, the next element of the
extension is such a direct transfer, entered with flag true. -/
lemma Reach.direct_succ {sys : SubwaySystem} {target : Station} :
    ∀ {visited : List Int} {current : Station} {tr : Bool} {ext : RoutePath},
      Reach sys target visited current tr ext →
      ∀ (i : Nat) (x : Station × Bool), ext[i]? = some x →
        x.1.id ≠ target.id → x.1.line ≠ target.line →
        (∃ tid ∈ x.1.transfer_ids, ∃ j t, dictLookup sys.stations tid = some j ∧
          sys.arena[j]? = some t ∧ t.line = target.line ∧ t.id ∉ visited ∧
          t.id ∉ (ext.take (i + 1)).map (fun e => e.1.id)) →
        ∃ y, ext[i + 1]? = some y ∧ y.2 = true ∧
          ∃ tid ∈ x.1.transfer_ids, ∃ j, dictLookup sys.stations tid = some j ∧
            sys.arena[j]? = some y.1 ∧ y.1.line = target.line := by
  intro visited current tr ext h
  induction h with
  | done visited current tr hnv hid =>
    intro i x hx hxid _ _
    rcases i with _ | n
    · rw [List.getElem?_cons_zero] at hx
      cases hx
      exact absurd hid hxid
    · simp at hx
  | seq visited current tr j ns ext hnv hid hline href hget hreach ih =>
    intro i x hx hxid hxl hyp
    rcases i with _ | n
    · rw [List.getElem?_cons_zero] at hx
      cases hx
      exact absurd hline hxl
    · rw [List.getElem?_cons_succ] at hx
      obtain ⟨tid, htid, j2, t, hdl, hga, htl, htv, htk⟩ := hyp
      rw [List.take_succ_cons, List.map_cons, List.mem_cons] at htk
      push_neg at htk
      obtain ⟨htk1, htk2⟩ := htk
      obtain ⟨y, hy, hytr, hrest⟩ := ih n x hx hxid hxl
        ⟨tid, htid, j2, t, hdl, hga, htl, by
          simp only [List.mem_cons]
          push_neg
          exact ⟨htk1, htv⟩, htk2⟩
      exact ⟨y, by rw [List.getElem?_cons_succ]; exact hy, hytr, hrest⟩
  | direct visited current tr resolved ts ext hnv hid hline hres hts hreach ih =>
    intro i x hx hxid hxl hyp
    rcases i with _ | n
    · rw [List.getElem?_cons_zero] at hx
      cases hx
      have hh : ext[0]? = some (ts, true) := by
        rw [getElem?_zero_eq_head?, hreach.head_eq]
      have h1 := List.mem_filter.mp hts
      have h2 := List.mem_filter.mp h1.1
      have htsl : ts.line = target.line := of_decide_eq_true h1.2
      obtain ⟨tid, htid, j2, hdl, hga⟩ := resolveTransfers_mem hres h2.1
      exact ⟨(ts, true), by rw [List.getElem?_cons_succ]; exact hh, rfl,
        tid, htid, j2, hdl, hga, htsl⟩
    · rw [List.getElem?_cons_succ] at hx
      obtain ⟨tid, htid, j2, t, hdl, hga, htl, htv, htk⟩ := hyp
      rw [List.take_succ_cons, List.map_cons, List.mem_cons] at htk
      push_neg at htk
      obtain ⟨htk1, htk2⟩ := htk
      obtain ⟨y, hy, hytr, hrest⟩ := ih n x hx hxid hxl
        ⟨tid, htid, j2, t, hdl, hga, htl, by
          simp only [List.mem_cons]
          push_neg
          exact ⟨htk1, htv⟩, htk2⟩
      exact ⟨y, by rw [List.getElem?_cons_succ]; exact hy, hytr, hrest⟩
  | indirect visited current tr resolved ts ext hnv hid hline hres hempty hts hreach ih =>
    intro i x hx hxid hxl hyp
    rcases i with _ | n
    · rw [List.getElem?_cons_zero] at hx
      cases hx
      obtain ⟨tid, htid, j2, t, hdl, hga, htl, htv, htk⟩ := hyp
      have htne : t.id ≠ current.id := by
        intro hc
        exact htk (by simp [hc])
      have htmem : t ∈ resolved := resolveTransfers_mem_of hres htid hdl hga
      have htfil : t ∈ (resolved.filter
          (fun u => decide (u.id ∉ current.id :: visited))).filter
          (fun u => decide (u.line = target.line)) := by
        refine List.mem_filter.mpr ⟨List.mem_filter.mpr ⟨htmem, ?_⟩, by simp [htl]⟩
        rw [decide_eq_true_iff]
        intro hc
        rcases List.mem_cons.mp hc with hcc | hcc
        · exact htne hcc
        · exact htv hcc
      rw [hempty] at htfil
      simp at htfil
    · rw [List.getElem?_cons_succ] at hx
      obtain ⟨tid, htid, j2, t, hdl, hga, htl, htv, htk⟩ := hyp
      rw [List.take_succ_cons, List.map_cons, List.mem_cons] at htk
      push_neg at htk
      obtain ⟨htk1, htk2⟩ := htk
      obtain ⟨y, hy, hytr, hrest⟩ := ih n x hx hxid hxl
        ⟨tid, htid, j2, t, hdl, hga, htl, by
          simp only [List.mem_cons]
          push_neg
          exact ⟨htk1, htv⟩, htk2⟩
      exact ⟨y, by rw [List.getElem?_cons_succ]; exact hy, hytr, hrest⟩
  | seqOff visited current tr resolved j ns ext hnv hid hline hres hempty href hget hreach ih =>
    intro i x hx hxid hxl hyp
    rcases i with _ | n
    · rw [List.getElem?_cons_zero] at hx
      cases hx
      obtain ⟨tid, htid, j2, t, hdl, hga, htl, htv, htk⟩ := hyp
      have htne : t.id ≠ current.id := by
        intro hc
        exact htk (by simp [hc])
      have htmem : t ∈ resolved := resolveTransfers_mem_of hres htid hdl hga
      have htfil : t ∈ (resolved.filter
          (fun u => decide (u.id ∉ current.id :: visited))).filter
          (fun u => decide (u.line = target.line)) := by
        refine List.mem_filter.mpr ⟨List.mem_filter.mpr ⟨htmem, ?_⟩, by simp [htl]⟩
        rw [decide_eq_true_iff]
        intro hc
        rcases List.mem_cons.mp hc with hcc | hcc
        · exact htne hcc
        · exact htv hcc
      rw [hempty] at htfil
      simp at htfil
    · rw [List.getElem?_cons_succ] at hx
      obtain ⟨tid, htid, j2, t, hdl, hga, htl, htv, htk⟩ := hyp
      rw [List.take_succ_cons, List.map_cons, List.mem_cons] at htk
      push_neg at htk
      obtain ⟨htk1, htk2⟩ := htk
      obtain ⟨y, hy, hytr, hrest⟩ := ih n x hx hxid hxl
        ⟨tid, htid, j2, t, hdl, hga, htl, by
          simp only [List.mem_cons]
          push_neg
          exact ⟨htk1, htv⟩, htk2⟩
      exact ⟨y, by rw [List.getElem?_cons_succ]; exact hy, hytr, hrest⟩

lemma two_tail_decomp (l : List Int) (h : 2 ≤ l.length) :
    ∃ init b a, l = init ++ [b, a] := by
  rcases hr : l.reverse with _ | ⟨a, _ | ⟨b, t⟩⟩
  · rw [List.reverse_eq_nil_iff] at hr
    rw [hr] at h
    simp at h
  · have hl : l = [a] := by
      rw [← List.reverse_reverse l, hr]
      rfl
    rw [hl] at h
    simp at h
  · refine ⟨t.reverse, b, a, ?_⟩
    have hl := congrArg List.reverse hr
    rw [List.reverse_reverse] at hl
    rw [hl]
    simp

lemma getLast!_concat (l : List Int) (a : Int) : (l ++ [a]).getLast! = a :=
  List.getLast!_of_getLast? (List.getLast?_concat l)

lemma getLast!_two (init : List Int) (b a : Int) :
    (init ++ [b, a]).getLast! = a := by
  have : init ++ [b, a] = (init ++ [b]) ++ [a] := by simp
  rw [this, getLast!_concat]

lemma dropLast_two (init : List Int) (b a : Int) :
    (init ++ [b, a]).dropLast = init ++ [b] := by
  have : init ++ [b, a] = (init ++ [b]) ++ [a] := by simp
  rw [this, List.dropLast_concat]

/-- The sigStep test of the source agrees pointwise with the reference
step written from the spec's words. -/
lemma sigStep_eq_reference_step (l : List Int) (st : Station × Bool) :
    sigStep l st =
      (match l.reverse with
       | a :: b :: _ => if a = st.1.id ∧ b = st.1.id then l else l ++ [st.1.id]
       | _ => l ++ [st.1.id]) := by
  by_cases hlen : l.length < 2
  · rw [show sigStep l st = l ++ [st.1.id] from if_pos (Or.inl hlen)]
    rcases l with _ | ⟨x1, _ | ⟨x2, rest⟩⟩
    · rfl
    · rfl
    · exact absurd hlen (by simp)
  · obtain ⟨init, b, a, rfl⟩ := two_tail_decomp l (by omega)
    have hrev : (init ++ [b, a]).reverse = a :: b :: init.reverse := by simp
    rw [hrev]
    show (if (init ++ [b, a]).length < 2 ∨ st.1.id ≠ (init ++ [b, a]).getLast! ∨
        st.1.id ≠ (init ++ [b, a]).dropLast.getLast! then
        init ++ [b, a] ++ [st.1.id]
      else init ++ [b, a]) =
      if a = st.1.id ∧ b = st.1.id then init ++ [b, a]
      else init ++ [b, a] ++ [st.1.id]
    rw [getLast!_two, dropLast_two, getLast!_concat]
    by_cases hab : a = st.1.id ∧ b = st.1.id
    · have hcond : ¬((init ++ [b, a]).length < 2 ∨ st.1.id ≠ a ∨ st.1.id ≠ b) := by
        push_neg
        refine ⟨?_, hab.1.symm, hab.2.symm⟩
        omega
      rw [if_neg hcond, if_pos hab]
    · have hcond : (init ++ [b, a]).length < 2 ∨ st.1.id ≠ a ∨ st.1.id ≠ b := by
        rcases not_and_or.mp hab with hna | hnb
        · exact Or.inr (Or.inl (fun hc => hna hc.symm))
        · exact Or.inr (Or.inr (fun hc => hnb hc.symm))
      rw [if_pos hcond, if_neg hab]

/-- The id lists of the source signature and of the reference signature
coincide on every path. -/
lemma sig_ids_eq_reference (path : RoutePath) :
    get_path_signature_ids path =
      signature_ids_reference (path.map (fun e => e.1.id)) := by
  unfold get_path_signature_ids signature_ids_reference
  rw [List.foldl_map]
  congr 1
  funext l st
  exact sigStep_eq_reference_step l st

lemma sig_fold_of_disjoint :
    ∀ (p : RoutePath) (acc : List Int),
      (∀ x ∈ p.map (fun e => e.1.id), x ∉ acc) →
      (p.map (fun e => e.1.id)).Nodup →
      p.foldl sigStep acc = acc ++ p.map (fun e => e.1.id) := by
  intro p
  induction p with
  | nil =>
    intro acc _ _
    simp
  | cons st rest ih =>
    intro acc hdis hnd
    have hnotin : st.1.id ∉ acc := hdis st.1.id (by simp)
    have hstep : sigStep acc st = acc ++ [st.1.id] := by
      unfold sigStep
      by_cases hlen : acc.length < 2
      · exact if_pos (Or.inl hlen)
      · obtain ⟨init, b, a, rfl⟩ := two_tail_decomp acc (by omega)
        have hne : st.1.id ≠ a := by
          intro hc
          exact hnotin (by simp [hc])
        rw [getLast!_two]
        exact if_pos (Or.inr (Or.inl hne))
    rw [List.foldl_cons, hstep]
    rw [List.map_cons, List.nodup_cons] at hnd
    rw [ih (acc ++ [st.1.id]) ?_ hnd.2]
    · simp
    · intro x hx
      rw [List.mem_append]
      push_neg
      refine ⟨hdis x (by simp [hx]), ?_⟩
      intro hc
      rw [List.mem_singleton] at hc
      rw [hc] at hx
      exact hnd.1 hx

/-- On a path whose station ids are pairwise distinct, the run-capping
branch of get_path_signature never drops anything: the processed id list
is the full id list. -/
lemma sig_ids_of_nodup {p : RoutePath}
    (h : (p.map (fun e => e.1.id)).Nodup) :
    get_path_signature_ids p = p.map (fun e => e.1.id) := by
  unfold get_path_signature_ids
  simpa using sig_fold_of_disjoint p [] (by simp) h

/-- Unpacking a successful find_route call: any returned path is a Reach
extension, from the resolved start stop with flag false and empty visited
set, towards the resolved end stop. -/
lemma find_route_ok_reach {sys : SubwaySystem} {a b c d : String}
    {ps : List RoutePath} (h : find_route sys a b c d = .ok ps)
    {p : RoutePath} (hp : p ∈ ps) :
    ∃ s e, stop_by_line_and_name sys a b = some s ∧
      stop_by_line_and_name sys c d = some e ∧ Reach sys e [] s false p := by
  unfold find_route at h
  split at h
  · exact absurd h (by simp)
  next sl hsl =>
    split at h
    · exact absurd h (by simp)
    next el hel =>
      split at h
      next s e hs he =>
        split at h
        · exact absurd h (by simp)
        next acc hdfs =>
          cases h
          rcases dfs_sound sys (sys.stations.length + 1) s e false [] [] ⟨[], []⟩
              acc hdfs p hp with h1 | ⟨ext, hpe, hre⟩
          · simp at h1
          · rw [List.nil_append] at hpe
            refine ⟨s, e, ?_, ?_, hpe ▸ hre⟩
            · unfold stop_by_line_and_name
              rw [hsl]
              exact hs
            · unfold stop_by_line_and_name
              rw [hel]
              exact he
      next hcatch =>
        cases h
        simp at hp

/-- find_station_in_line only returns arena members whose name matches. -/
lemma find_station_in_line_spec {sys : SubwaySystem} {idxs : List Nat}
    {name : String} {s : Station}
    (h : find_station_in_line sys idxs name = some s) :
    s ∈ sys.arena ∧ s.name = name := by
  unfold find_station_in_line at h
  constructor
  · have hm := List.mem_of_find?_eq_some h
    rcases List.mem_filterMap.mp hm with ⟨i, _, hg⟩
    exact List.getElem?_mem hg
  · have hd := List.find?_some h
    exact of_decide_eq_true hd

/-- A resolved stop is an arena member. -/
lemma stop_by_line_and_name_mem {sys : SubwaySystem} {ln name : String}
    {s : Station} (h : stop_by_line_and_name sys ln name = some s) :
    s ∈ sys.arena := by
  unfold stop_by_line_and_name at h
  split at h
  · exact absurd h (by simp)
  · exact (find_station_in_line_spec h).1

/-- Under the lines invariant, a resolved stop lies on the named line. -/
lemma stop_by_line_and_name_line {sys : SubwaySystem} (hinv : LinesInv sys)
    {ln name : String} {s : Station}
    (h : stop_by_line_and_name sys ln name = some s) : s.line = ln := by
  unfold stop_by_line_and_name at h
  split at h
  · exact absurd h (by simp)
  next idxs hl =>
    unfold linesLookup at hl
    cases hf : sys.lines.find? (fun p => decide (p.1 = ln)) with
    | none => rw [hf] at hl; simp at hl
    | some pr =>
      rw [hf] at hl
      simp at hl
      have hprmem := List.mem_of_find?_eq_some hf
      have hfd := List.find?_some hf
      have hprln : pr.1 = ln := of_decide_eq_true hfd
      unfold find_station_in_line at h
      have hm := List.mem_of_find?_eq_some h
      rcases List.mem_filterMap.mp hm with ⟨i, hi, hg⟩
      rcases hinv pr hprmem i (by rw [hl]; exact hi) with ⟨s2, hg2, hline2⟩
      rw [hg] at hg2
      cases hg2
      exact hline2.trans hprln

lemma exBind_ne_fuel {x : Except SearchError SearchAcc}
    {f : SearchAcc → Except SearchError SearchAcc}
    (hx : x ≠ .error .outOfFuel) (hf : ∀ a, f a ≠ .error .outOfFuel) :
    exBind x f ≠ .error .outOfFuel := by
  unfold exBind
  cases x with
  | error e => exact hx
  | ok a => exact hf a

lemma visitNeighbor_ne_fuel {sys : SubwaySystem}
    {f : Station → SearchAcc → Except SearchError SearchAcc}
    {visited : List Int} {ref : Option Nat} {acc : SearchAcc}
    (hf : ∀ ns a, ns ∈ sys.arena → f ns a ≠ .error .outOfFuel) :
    visitNeighbor sys f visited ref acc ≠ .error .outOfFuel := by
  unfold visitNeighbor
  split
  · simp
  next j =>
    split
    · simp
    next ns hg =>
      split
      · simp
      · exact hf ns acc (List.getElem?_mem hg)

lemma foldChildren_ne_fuel {f : Station → SearchAcc → Except SearchError SearchAcc} :
    ∀ (l : List Station), (∀ t ∈ l, ∀ a, f t a ≠ .error .outOfFuel) →
    ∀ acc, foldChildren f l acc ≠ .error .outOfFuel := by
  intro l
  induction l with
  | nil =>
    intro _ acc
    simp [foldChildren]
  | cons s rest ih =>
    intro hf acc
    unfold foldChildren
    split
    next e hfs =>
      have hs := hf s (by simp) acc
      rw [hfs] at hs
      exact hs
    next a1 hfs =>
      exact ih (fun t ht a => hf t (by simp [ht]) a) a1

/-- Fuel adequacy of the embedded dfs: a call whose fuel exceeds the
number of distinct arena station ids not yet visited can never exhaust
its fuel — each recursion layer either returns at once on a visited id
or shrinks that count by one. -/
theorem dfs_ne_outOfFuel (sys : SubwaySystem) :
    ∀ (fuel : Nat) (current target : Station) (tr : Bool) (visited : List Int)
      (path : RoutePath) (acc : SearchAcc),
      current ∈ sys.arena →
      ((sys.arena.map (fun s => s.id)).toFinset \ visited.toFinset).card < fuel →
      dfs sys fuel current target tr visited path acc ≠ .error .outOfFuel := by
  intro fuel
  induction fuel with
  | zero =>
    intro current target tr visited path acc _ hcard
    exact absurd hcard (Nat.not_lt_zero _)
  | succ fuel ih =>
    intro current target tr visited path acc hcur hcard
    simp only [dfs]
    by_cases hv : current.id ∈ visited
    · rw [if_pos hv]
      simp
    · rw [if_neg hv]
      have hmem : current.id ∈ (sys.arena.map (fun s => s.id)).toFinset := by
        rw [List.mem_toFinset]
        exact List.mem_map.mpr ⟨current, hcur, rfl⟩
      have hdiff : current.id ∈
          (sys.arena.map (fun s => s.id)).toFinset \ visited.toFinset := by
        refine Finset.mem_sdiff.mpr ⟨hmem, ?_⟩
        rw [List.mem_toFinset]
        exact hv
      have hcard2 : ((sys.arena.map (fun s => s.id)).toFinset \
          (current.id :: visited).toFinset).card < fuel := by
        rw [List.toFinset_cons, Finset.sdiff_insert]
        have h1 := Finset.card_erase_of_mem hdiff
        have h2 : 0 < ((sys.arena.map (fun s => s.id)).toFinset \
            visited.toFinset).card := Finset.card_pos.mpr ⟨current.id, hdiff⟩
        omega
      by_cases hid : current.id = target.id
      · rw [if_pos hid]
        split <;> simp
      · rw [if_neg hid]
        by_cases hline : current.line = target.line
        · rw [if_pos hline]
          apply exBind_ne_fuel
          · apply visitNeighbor_ne_fuel
            intro ns a hns
            exact ih ns target false (current.id :: visited) _ a hns hcard2
          · intro a
            apply visitNeighbor_ne_fuel
            intro ns a2 hns
            exact ih ns target false (current.id :: visited) _ a2 hns hcard2
        · rw [if_neg hline]
          cases hres : resolveTransfers sys current.transfer_ids with
          | error e =>
            simp only [hres]
            have hne := resolveTransfers_ne_outOfFuel sys
              current.transfer_ids
            rw [hres] at hne
            intro hc
            apply hne
            injection hc with hc2
            rw [hc2]
          | ok resolved =>
            simp only [hres]
            have hsub : ∀ t ∈ resolved.filter
                (fun t => decide (t.id ∉ current.id :: visited)),
                t ∈ sys.arena := by
              intro t ht
              obtain ⟨tid, _, j, _, hg⟩ :=
                resolveTransfers_mem hres (List.mem_filter.mp ht).1
              exact List.getElem?_mem hg
            split
            · apply exBind_ne_fuel
              · apply exBind_ne_fuel
                · apply foldChildren_ne_fuel
                  intro t ht a
                  have htm : t ∈ sys.arena := hsub t (List.mem_filter.mp ht).1
                  exact ih t target true (current.id :: visited) _ a htm hcard2
                · intro a
                  apply visitNeighbor_ne_fuel
                  intro ns a2 hns
                  exact ih ns target false (current.id :: visited) _ a2 hns hcard2
              · intro a
                apply visitNeighbor_ne_fuel
                intro ns a2 hns
                exact ih ns target false (current.id :: visited) _ a2 hns hcard2
            · apply foldChildren_ne_fuel
              intro t ht a
              have htm : t ∈ sys.arena := hsub t (List.mem_filter.mp ht).1
              exact ih t target true (current.id :: visited) _ a htm hcard2

lemma set_same {α : Type} (l : List α) (j : Nat) (a : α) (h : l[j]? = some a) :
    l.set j a = l := by
  apply List.ext_getElem?
  intro n
  by_cases hn : j = n
  · subst hn
    rw [List.getElem?_set_self', h]
    rfl
  · rw [List.getElem?_set_ne hn]

/-- The linking pass only writes prev and next; any projection ignoring
those two fields is unchanged. -/
lemma linkStep_map_proj {α : Type} (f : Station → α)
    (hf : ∀ (s : Station) (pv nx : Option Nat),
      f { s with prev := pv, next := nx } = f s)
    (ar : List Station) (l : List Nat) (i : Nat) :
    (linkStep ar l i).map f = ar.map f := by
  unfold linkStep
  split
  · rfl
  next j hj =>
    split
    · rfl
    next s hs =>
      rw [List.map_set]
      rw [hf s _ _]
      apply set_same
      rw [List.getElem?_map, hs]
      rfl

lemma linkLine_map_proj {α : Type} (f : Station → α)
    (hf : ∀ (s : Station) (pv nx : Option Nat),
      f { s with prev := pv, next := nx } = f s)
    (ar : List Station) (l : List Nat) :
    (linkLine ar l).map f = ar.map f := by
  unfold linkLine
  generalize List.range l.length = idxs
  induction idxs generalizing ar with
  | nil => rfl
  | cons i rest ih =>
    rw [List.foldl_cons, ih (linkStep ar l i)]
    exact linkStep_map_proj f hf ar l i

lemma linkAll_map_proj {α : Type} (f : Station → α)
    (hf : ∀ (s : Station) (pv nx : Option Nat),
      f { s with prev := pv, next := nx } = f s)
    (ar : List Station) (lns : List (String × List Nat)) :
    (linkAll ar lns).map f = ar.map f := by
  unfold linkAll
  induction lns generalizing ar with
  | nil => rfl
  | cons pr rest ih =>
    rw [List.foldl_cons, ih (linkLine ar pr.2)]
    exact linkLine_map_proj f hf ar pr.2

lemma phase1_arena_ids : ∀ (rows : List Record) (sys : SubwaySystem),
    (rows.foldl load_step sys).arena.map (fun s => s.id) =
      sys.arena.map (fun s => s.id) ++ rows.map (fun r => r.id) := by
  intro rows
  induction rows with
  | nil =>
    intro sys
    simp
  | cons r rest ih =>
    intro sys
    rw [List.foldl_cons, ih (load_step sys r)]
    simp [load_step]

/-- After loading, the arena's id sequence is exactly the input rows' id
sequence. -/
lemma load_arena_ids (rows : List Record) :
    (load_from_records rows).arena.map (fun s => s.id) =
      rows.map (fun r => r.id) := by
  have h1 : (load_from_records rows).arena =
      linkAll (load_phase1 rows).arena (load_phase1 rows).lines := rfl
  rw [h1, linkAll_map_proj (fun s => s.id) (fun s pv nx => rfl)]
  have h2 := phase1_arena_ids rows ⟨[], [], []⟩
  unfold load_phase1
  simpa using h2

lemma dictInsert_keys_map (d : List (Int × Nat)) (k : Int) (v : Nat) :
    (dictInsert d k v).map (fun p => p.1) =
      if k ∈ d.map (fun p => p.1) then d.map (fun p => p.1)
      else d.map (fun p => p.1) ++ [k] := by
  unfold dictInsert
  by_cases hmem : k ∈ d.map (fun p => p.1)
  · rw [if_pos, if_pos hmem]
    · rw [List.map_map]
      apply List.map_congr_left
      intro p _
      by_cases hpk : p.1 = k
      · simp [hpk]
      · simp [hpk]
    · rw [List.any_eq_true]
      rcases List.mem_map.mp hmem with ⟨p, hp, hpk⟩
      exact ⟨p, hp, by simp [hpk]⟩
  · rw [if_neg, if_neg hmem]
    · simp
    · rw [List.any_eq_true]
      rintro ⟨p, hp, hd⟩
      exact hmem (List.mem_map.mpr ⟨p, hp, of_decide_eq_true hd⟩)

lemma dictInsert_keys_nodup {d : List (Int × Nat)} {k : Int} {v : Nat}
    (h : (d.map (fun p => p.1)).Nodup) :
    ((dictInsert d k v).map (fun p => p.1)).Nodup := by
  rw [dictInsert_keys_map]
  by_cases hmem : k ∈ d.map (fun p => p.1)
  · rw [if_pos hmem]
    exact h
  · rw [if_neg hmem]
    rw [List.nodup_append]
    refine ⟨h, by simp, ?_⟩
    intro x hx hxk
    rw [List.mem_singleton] at hxk
    rw [hxk] at hx
    exact hmem hx

lemma phase1_keys_nodup : ∀ (rows : List Record) (sys : SubwaySystem),
    (sys.stations.map (fun p => p.1)).Nodup →
    ((rows.foldl load_step sys).stations.map (fun p => p.1)).Nodup := by
  intro rows
  induction rows with
  | nil =>
    intro sys h
    exact h
  | cons r rest ih =>
    intro sys h
    rw [List.foldl_cons]
    exact ih (load_step sys r) (dictInsert_keys_nodup h)

lemma phase1_keys_finset : ∀ (rows : List Record) (sys : SubwaySystem),
    ((rows.foldl load_step sys).stations.map (fun p => p.1)).toFinset =
      (sys.stations.map (fun p => p.1)).toFinset ∪
        (rows.map (fun r => r.id)).toFinset := by
  intro rows
  induction rows with
  | nil =>
    intro sys
    simp
  | cons r rest ih =>
    intro sys
    rw [List.foldl_cons, ih (load_step sys r)]
    have hst : (load_step sys r).stations = dictInsert sys.stations r.id sys.arena.length := rfl
    rw [hst, dictInsert_keys_map]
    by_cases hmem : r.id ∈ sys.stations.map (fun p => p.1)
    · rw [if_pos hmem]
      have hm2 : r.id ∈ (sys.stations.map (fun p => p.1)).toFinset ∪
          (rest.map (fun x => x.id)).toFinset :=
        Finset.mem_union_left _ (List.mem_toFinset.mpr hmem)
      rw [List.map_cons, List.toFinset_cons, Finset.union_insert,
        Finset.insert_eq_self.mpr hm2]
    · rw [if_neg hmem]
      have hsing : ([r.id] : List Int).toFinset = {r.id} := by simp
      rw [List.toFinset_append, hsing, Finset.union_assoc, List.map_cons,
        List.toFinset_cons, Finset.insert_eq]

/-- The number of distinct station ids of a loaded system is at most the
number of entries of its stations dict (they are in fact equal: the dict
keys are exactly the distinct ids). -/
lemma load_ids_card_le (rows : List Record) :
    ((load_from_records rows).arena.map (fun s => s.id)).toFinset.card ≤
      (load_from_records rows).stations.length := by
  rw [load_arena_ids]
  have hst : (load_from_records rows).stations = (load_phase1 rows).stations := rfl
  rw [hst]
  have hkf := phase1_keys_finset rows ⟨[], [], []⟩
  have hkn := phase1_keys_nodup rows ⟨[], [], []⟩ (by simp)
  unfold load_phase1
  have hkf2 : ((rows.foldl load_step ⟨[], [], []⟩).stations.map
      (fun p => p.1)).toFinset = (rows.map (fun r => r.id)).toFinset := by
    rw [hkf]
    simp
  rw [← hkf2, List.toFinset_card_of_nodup hkn, List.length_map]

lemma lines_inv_load_step {sys : SubwaySystem} {r : Record}
    (h : LinesInv sys) : LinesInv (load_step sys r) := by
  intro pr hpr i hi
  have hlines : (load_step sys r).lines =
      linesAppend sys.lines r.line sys.arena.length := rfl
  have harena : (load_step sys r).arena = sys.arena ++
      [{ id := r.id, line := r.line, name := r.name,
         transfer_ids := r.transfer_ids, prev := none, next := none }] := rfl
  rw [hlines] at hpr
  rw [harena]
  unfold linesAppend at hpr
  by_cases hmem : sys.lines.any (fun p => decide (p.1 = r.line))
  · rw [if_pos hmem] at hpr
    rcases List.mem_map.mp hpr with ⟨q, hq, hqe⟩
    by_cases hql : q.1 = r.line
    · rw [if_pos hql] at hqe
      cases hqe
      rcases List.mem_append.mp hi with hi1 | hi2
      · rcases h q hq i hi1 with ⟨s, hg, hl⟩
        obtain ⟨hlt, _⟩ := List.getElem?_eq_some_iff.mp hg
        rw [List.getElem?_append_left hlt]
        exact ⟨s, hg, hl⟩
      · rw [List.mem_singleton] at hi2
        subst hi2
        refine ⟨_, List.getElem?_concat_length sys.arena _, ?_⟩
        exact hql.symm
    · rw [if_neg hql] at hqe
      cases hqe
      rcases h _ hq i hi with ⟨s, hg, hl⟩
      obtain ⟨hlt, _⟩ := List.getElem?_eq_some_iff.mp hg
      rw [List.getElem?_append_left hlt]
      exact ⟨s, hg, hl⟩
  · rw [if_neg hmem] at hpr
    rcases List.mem_append.mp hpr with hpr1 | hpr2
    · rcases h pr hpr1 i hi with ⟨s, hg, hl⟩
      obtain ⟨hlt, _⟩ := List.getElem?_eq_some_iff.mp hg
      rw [List.getElem?_append_left hlt]
      exact ⟨s, hg, hl⟩
    · rw [List.mem_singleton] at hpr2
      subst hpr2
      rw [List.mem_singleton] at hi
      subst hi
      exact ⟨_, List.getElem?_concat_length sys.arena _, rfl⟩

lemma lines_inv_phase1 : ∀ (rows : List Record) (sys : SubwaySystem),
    LinesInv sys → LinesInv (rows.foldl load_step sys) := by
  intro rows
  induction rows with
  | nil => intro sys h; exact h
  | cons r rest ih =>
    intro sys h
    rw [List.foldl_cons]
    exact ih (load_step sys r) (lines_inv_load_step h)

/-- Every loaded system satisfies the lines invariant: line list entries
dereference to stations of that line. -/
lemma lines_inv_load (rows : List Record) :
    LinesInv (load_from_records rows) := by
  have hph : LinesInv (load_phase1 rows) :=
    lines_inv_phase1 rows ⟨[], [], []⟩ (by intro pr hpr; simp at hpr)
  intro pr hpr i hi
  have hlines : (load_from_records rows).lines = (load_phase1 rows).lines := rfl
  rw [hlines] at hpr
  rcases hph pr hpr i hi with ⟨s, hg, hl⟩
  have hmap := linkAll_map_proj (fun s => s.line) (fun s pv nx => rfl)
    (load_phase1 rows).arena (load_phase1 rows).lines
  have harena : (load_from_records rows).arena =
      linkAll (load_phase1 rows).arena (load_phase1 rows).lines := rfl
  have h1 : ((load_from_records rows).arena[i]?).map (fun s => s.line) =
      some s.line := by
    rw [harena, ← List.getElem?_map, hmap, List.getElem?_map, hg]
    rfl
  rcases Option.map_eq_some'.mp h1 with ⟨s2, hg2, hl2⟩
  exact ⟨s2, hg2, hl2.trans hl⟩

/-- With pairwise distinct input ids, the loaded arena's ids are pairwise
distinct, so stations are determined by their ids. -/
lemma load_arena_ids_nodup {rows : List Record}
    (h : (rows.map (fun r => r.id)).Nodup) :
    ((load_from_records rows).arena.map (fun s => s.id)).Nodup := by
  rw [load_arena_ids]
  exact h

lemma dictInsert_cons_ne {p : Int × Nat} {rest : List (Int × Nat)} {k : Int}
    {v : Nat} (hpk : ¬ p.1 = k) :
    dictInsert (p :: rest) k v = p :: dictInsert rest k v := by
  unfold dictInsert
  by_cases hr : rest.any (fun q => decide (q.1 = k))
  · rw [if_pos, if_pos hr]
    · rw [List.map_cons, if_neg hpk]
    · rw [List.any_cons]
      simp [hr]
  · rw [if_neg, if_neg hr]
    · rfl
    · rw [List.any_cons]
      simp [hpk, hr]

/-- Python dict semantics of the loader: after d[k] = v, looking up k
yields v, whether or not k was present before. -/
lemma dictLookup_insert_self : ∀ (d : List (Int × Nat)) (k : Int) (v : Nat),
    dictLookup (dictInsert d k v) k = some v := by
  intro d k v
  induction d with
  | nil => simp [dictInsert, dictLookup]
  | cons p rest ih =>
    by_cases hpk : p.1 = k
    · have hany : (p :: rest).any (fun q => decide (q.1 = k)) = true := by
        rw [List.any_cons]
        simp [hpk]
      unfold dictInsert
      rw [if_pos hany]
      unfold dictLookup
      rw [List.map_cons, if_pos hpk, List.find?_cons_of_pos]
      · rfl
      · simp
    · rw [dictInsert_cons_ne hpk]
      unfold dictLookup
      rw [List.find?_cons_of_neg]
      · exact ih
      · simp [hpk]

lemma phase1_arena_length (rows : List Record) :
    (load_phase1 rows).arena.length = rows.length := by
  have h1 := phase1_arena_ids rows ⟨[], [], []⟩
  unfold load_phase1
  have h2 := congrArg List.length h1
  simpa using h2

/-- Loading keeps every input record: the arena has one station per row. -/
lemma load_arena_length (rows : List Record) :
    (load_from_records rows).arena.length = rows.length := by
  have h1 := congrArg List.length (load_arena_ids rows)
  simpa using h1

/-- C1, counterexample: the claim also covers the case of a line name
that is not a key of the lines dict, asserting an empty result without
error; but find_route subscripts self.lines with the given line names, so
an unknown start line raises KeyError instead of returning the empty
list. Concretely, on the scenario network the line C is unknown and the
query from (C, X) to (A, Z) raises. -/
theorem c1_counterexample_unknown_line_raises :
    linesLookup sysC7.lines "C" = none ∧
    find_route sysC7 "C" "X" "A" "Z" = .error .keyError :=
  ⟨rfl, rfl⟩

/-- C1, amended: when both given line names are keys of the lines dict
but the start or end name does not resolve to a stop on its line,
find_route returns the empty list and raises no error. (An unknown line
name instead raises KeyError.) -/
theorem c1_amended_unresolved_name_empty (sys : SubwaySystem)
    (a b c d : String) (sl el : List Nat)
    (hsl : linesLookup sys.lines a = some sl)
    (hel : linesLookup sys.lines c = some el)
    (hun : find_station_in_line sys sl b = none ∨
      find_station_in_line sys el d = none) :
    find_route sys a b c d = .ok [] := by
  unfold find_route
  rcases hun with hun | hun
  · cases hd2 : find_station_in_line sys el d with
    | none => simp only [hsl, hel, hun, hd2]
    | some e2 => simp only [hsl, hel, hun, hd2]
  · cases hd1 : find_station_in_line sys sl b with
    | none => simp only [hsl, hel, hd1, hun]
    | some s2 => simp only [hsl, hel, hd1, hun]

/-- C1, witness: on the scenario network, the name Q resolves on no line,
and the query from (A, Q) to (A, Z) returns the empty list. -/
theorem c1_witness_unresolved_name :
    find_route sysC7 "A" "Q" "A" "Z" = .ok [] :=
  c1_amended_unresolved_name_empty sysC7 "A" "Q" "A" "Z" [0, 1, 2] [0, 1, 2]
    rfl rfl (Or.inl rfl)

/-- C2, counterexample: the claim says two records sharing an id make
construction fail with DuplicateIdError and no graph is produced; but
load_from_csv has no duplicate check at all — on the two records with id
1 it builds a graph: both stations are in the arena and in line A's list,
and the stations dict silently maps id 1 to the later record (arena
position 1). -/
theorem c2_counterexample_duplicate_id_no_error :
    (load_from_records rowsDup).arena.length = 2 ∧
    dictLookup (load_from_records rowsDup).stations 1 = some 1 ∧
    linesLookup (load_from_records rowsDup).lines "A" = some [0, 1] :=
  ⟨rfl, rfl, rfl⟩

/-- C2, amended: graph construction never fails; every record (duplicate
id or not) is kept in the arena and appended to its line's list, and the
stations dict entry of an id is silently overwritten so that it refers to
the last record carrying that id. -/
theorem c2_amended_duplicate_id_overwrites (rows : List Record) (r : Record) :
    dictLookup (load_from_records (rows ++ [r])).stations r.id =
      some rows.length ∧
    (load_from_records (rows ++ [r])).arena.length = rows.length + 1 := by
  constructor
  · have hst : (load_from_records (rows ++ [r])).stations =
        (load_phase1 (rows ++ [r])).stations := rfl
    rw [hst]
    unfold load_phase1
    rw [List.foldl_append]
    have hfold : ([r].foldl load_step (rows.foldl load_step ⟨[], [], []⟩)) =
        load_step (rows.foldl load_step ⟨[], [], []⟩) r := rfl
    rw [hfold]
    have hl : (load_step (rows.foldl load_step ⟨[], [], []⟩) r).stations =
        dictInsert (rows.foldl load_step ⟨[], [], []⟩).stations r.id
          (rows.foldl load_step ⟨[], [], []⟩).arena.length := rfl
    rw [hl, dictLookup_insert_self]
    have hlen := phase1_arena_length rows
    unfold load_phase1 at hlen
    rw [hlen]
  · rw [load_arena_length]
    simp

/-- C3: the canonical signature computed by get_path_signature equals the
reference signature written from the spec's words — walk the stop ids in
order, append each unless the two preceding output entries both equal it
(capping runs of identical consecutive ids at length 2), then join the
output into one string. -/
theorem c3_signature_matches_reference (path : RoutePath) :
    get_path_signature path = signature_reference path := by
  unfold get_path_signature signature_reference
  rw [sig_ids_eq_reference]

/-- C4: transfers are never taken from a stop on the target line — in any
returned path, the element following a stop whose line is the end line
has its transfer flag false, and its stop is the dereferenced prev or
next sequential neighbour of that stop. -/
theorem c4_target_line_sequential (rows : List Record) (a b c d : String)
    (ps : List RoutePath)
    (h : find_route (load_from_records rows) a b c d = .ok ps)
    (p : RoutePath) (hp : p ∈ ps) (i : Nat) (x y : Station × Bool)
    (hx : p[i]? = some x) (hy : p[i + 1]? = some y) (hxl : x.1.line = c) :
    y.2 = false ∧ ∃ j, (x.1.prev = some j ∨ x.1.next = some j) ∧
      (load_from_records rows).arena[j]? = some y.1 := by
  obtain ⟨s, e, hs, he, hre⟩ := find_route_ok_reach h hp
  have heline : e.line = c := stop_by_line_and_name_line (lines_inv_load rows) he
  exact hre.pairwise_seq i x y hx hy (by rw [hxl, ← heline])

/-- C4, witness: on the scenario network's path from (A, X) to (B, W),
station 4 lies on the end line B, and its successor (station 5) is
reached sequentially with flag false. -/
theorem c4_witness_scenario :
    ((stB5, false) : Station × Bool).2 = false ∧
    ∃ j, (stB4.prev = some j ∨ stB4.next = some j) ∧
      (load_from_records rowsC7).arena[j]? = some stB5 :=
  c4_target_line_sequential rowsC7 "A" "X" "B" "W" [pathAXBW] rfl pathAXBW
    (by simp) 2 (stB4, true) (stB5, false) rfl rfl rfl

/-- C5: direct-transfer priority — if a stop of a returned path is not
the target, not on the end line, and has a transfer target on the end
line whose id does not occur up to that point of the path (the search's
visited set at that moment), then the path's next element exists, is one
of that stop's transfer targets on the end line, and carries flag true. -/
theorem c5_direct_transfer_priority (rows : List Record) (a b c d : String)
    (ps : List RoutePath)
    (h : find_route (load_from_records rows) a b c d = .ok ps)
    (en : Station)
    (hen : stop_by_line_and_name (load_from_records rows) c d = some en)
    (p : RoutePath) (hp : p ∈ ps) (i : Nat) (x : Station × Bool)
    (hx : p[i]? = some x) (hxid : x.1.id ≠ en.id) (hxl : x.1.line ≠ c)
    (hdir : ∃ tid ∈ x.1.transfer_ids, ∃ j t,
      dictLookup (load_from_records rows).stations tid = some j ∧
      (load_from_records rows).arena[j]? = some t ∧ t.line = c ∧
      t.id ∉ (p.take (i + 1)).map (fun e => e.1.id)) :
    ∃ y, p[i + 1]? = some y ∧ y.2 = true ∧
      ∃ tid ∈ x.1.transfer_ids, ∃ j,
        dictLookup (load_from_records rows).stations tid = some j ∧
        (load_from_records rows).arena[j]? = some y.1 ∧ y.1.line = c := by
  obtain ⟨s, e, hs, he, hre⟩ := find_route_ok_reach h hp
  have hee : e = en := by
    rw [he] at hen
    exact Option.some.inj hen
  subst hee
  have heline : e.line = c := stop_by_line_and_name_line (lines_inv_load rows) he
  obtain ⟨tid, htid, j, t, hdl, hga, htl, htk⟩ := hdir
  obtain ⟨y, hy, hytr, tid2, htid2, j2, hdl2, hga2, hyl⟩ :=
    hre.direct_succ i x hx hxid (fun hc => hxl (hc.trans heline))
      ⟨tid, htid, j, t, hdl, hga, htl.trans heline.symm, by simp, htk⟩
  exact ⟨y, hy, hytr, tid2, htid2, j2, hdl2, hga2, hyl.trans heline⟩

/-- C5, witness: on the scenario path from (A, X) to (B, W), station 2 is
off the end line B and has the unvisited direct transfer 4; its successor
is station 4, a transfer target on line B, entered with flag true. -/
theorem c5_witness_scenario :
    ∃ y, pathAXBW[2]? = some y ∧ y.2 = true ∧
      ∃ tid ∈ ((stA2, false) : Station × Bool).1.transfer_ids, ∃ j,
        dictLookup (load_from_records rowsC7).stations tid = some j ∧
        (load_from_records rowsC7).arena[j]? = some y.1 ∧ y.1.line = "B" :=
  c5_direct_transfer_priority rowsC7 "A" "X" "B" "W" [pathAXBW] rfl stB5 rfl
    pathAXBW (by simp) 1 (stA2, false) rfl (by decide) (by decide)
    ⟨4, by simp [stA2], 3, stB4, rfl, rfl, rfl, by decide⟩

/-- C6: endpoint correctness — on a network loaded from records with
pairwise distinct ids, every returned path is non-empty (it has a head),
its head is the resolved start stop with flag false, and its last element
carries the resolved end stop. -/
theorem c6_endpoint_correctness (rows : List Record)
    (hnd : (rows.map (fun r => r.id)).Nodup) (a b c d : String)
    (ps : List RoutePath)
    (h : find_route (load_from_records rows) a b c d = .ok ps)
    (p : RoutePath) (hp : p ∈ ps) :
    ∃ s e, stop_by_line_and_name (load_from_records rows) a b = some s ∧
      stop_by_line_and_name (load_from_records rows) c d = some e ∧
      p.head? = some (s, false) ∧ ∃ fl, p.getLast? = some (e, fl) := by
  obtain ⟨s, e, hs, he, hre⟩ := find_route_ok_reach h hp
  refine ⟨s, e, hs, he, hre.head_eq, ?_⟩
  obtain ⟨q, hq, hqid, hqmem⟩ := hre.last_target (stop_by_line_and_name_mem hs)
  have hem : e ∈ (load_from_records rows).arena := stop_by_line_and_name_mem he
  have hqe : q.1 = e :=
    List.inj_on_of_nodup_map (load_arena_ids_nodup hnd) hqmem hem hqid
  refine ⟨q.2, ?_⟩
  rw [← hqe, Prod.mk.eta]
  exact hq

/-- C6, witness: on the scenario network, the path from (A, X) to (B, W)
starts at the resolved (A, X) stop with flag false and ends at the
resolved (B, W) stop. -/
theorem c6_witness_scenario :
    ∃ s e, stop_by_line_and_name (load_from_records rowsC7) "A" "X" = some s ∧
      stop_by_line_and_name (load_from_records rowsC7) "B" "W" = some e ∧
      pathAXBW.head? = some (s, false) ∧
      ∃ fl, pathAXBW.getLast? = some (e, fl) :=
  c6_endpoint_correctness rowsC7 (by decide) "A" "X" "B" "W" [pathAXBW] rfl
    pathAXBW (by simp)

/-- C7: on the scenario network (line A: 1 X, 2 Y, 3 Z; line B: 4 Y, 5 W;
transfer 2 with 4), the query from (A, X) to (A, Z) returns exactly one
path, with stop ids 1, 2, 3 and every transfer flag false. -/
theorem c7_scenario_same_line :
    routeIds (find_route sysC7 "A" "X" "A" "Z") =
      .ok [[(1, false), (2, false), (3, false)]] := rfl

/-- C8: determinism — find_route is a pure function of the graph and the
query, so two calls with the same arguments return the same path
sequence in the same order. The embedded search is deterministic because
the Python search state is call-local and its dicts and sets are only
ever iterated in insertion order or tested for membership. -/
theorem c8_determinism (sys : SubwaySystem) (a b c d : String) :
    find_route sys a b c d = find_route sys a b c d := rfl

/-- C9: termination — on any loaded network and any query, the search
never exhausts the fuel find_route hands it (one more than the number of
stations dict entries, which is the number of distinct stop ids): each
recursion layer either returns at once on a visited id or adds a fresh
arena id to the visited set, so recursion depth is bounded by the number
of distinct stop ids. -/
theorem c9_search_terminates (rows : List Record) (a b c d : String) :
    find_route (load_from_records rows) a b c d ≠
      Except.error SearchError.outOfFuel := by
  unfold find_route
  split
  · simp
  next sl hsl =>
    split
    · simp
    next el hel =>
      split
      next s e hs he =>
        cases hdfs : dfs (load_from_records rows)
            ((load_from_records rows).stations.length + 1) s e false [] []
            ⟨[], []⟩ with
        | error err =>
          simp only [hdfs]
          have hmem : s ∈ (load_from_records rows).arena :=
            (find_station_in_line_spec hs).1
          have hcard : (((load_from_records rows).arena.map
              (fun s => s.id)).toFinset \
                (([] : List Int).toFinset)).card <
              (load_from_records rows).stations.length + 1 := by
            simp only [List.toFinset_nil, Finset.sdiff_empty]
            have hle := load_ids_card_le rows
            omega
          have hne := dfs_ne_outOfFuel (load_from_records rows)
            ((load_from_records rows).stations.length + 1) s e false [] []
            ⟨[], []⟩ hmem hcard
          rw [hdfs] at hne
          intro hc
          apply hne
          injection hc with hc2
          rw [hc2]
        | ok acc =>
          simp only [hdfs]
          simp
      next =>
        simp

/-- C10: strict simplicity — in every path any find_route call returns,
the stop ids are pairwise distinct (the visited set blocks re-entry and
the target is never expanded), and consequently the signature's
run-capping branch drops nothing: the processed id list is the path's
full id list. -/
theorem c10_returned_paths_simple (sys : SubwaySystem) (a b c d : String)
    (ps : List RoutePath) (h : find_route sys a b c d = .ok ps)
    (p : RoutePath) (hp : p ∈ ps) :
    (p.map (fun e => e.1.id)).Nodup ∧
      get_path_signature_ids p = p.map (fun e => e.1.id) := by
  obtain ⟨s, e, _, _, hre⟩ := find_route_ok_reach h hp
  have hnd := hre.ids_nodup.1
  exact ⟨hnd, sig_ids_of_nodup hnd⟩

/-- C10, witness: the concrete scenario path has pairwise distinct ids
and its signature id list is its full id list. -/
theorem c10_witness_scenario :
    (pathAXBW.map (fun e => e.1.id)).Nodup ∧
      get_path_signature_ids pathAXBW = pathAXBW.map (fun e => e.1.id) :=
  c10_returned_paths_simple (load_from_records rowsC7) "A" "X" "B" "W"
    [pathAXBW] rfl pathAXBW (by simp)
